import Mathlib

/-!
Verification of the repository file-tree materialization and addressing core
of the launchmango backend (a Go HTTP service).  The definitions below are a
shallow embedding of the program: pure Go helpers become Lean functions,
filesystem-dependent handlers become functions of an explicit environment
(stat results, git command output, the filesystem subtree at a path), and the
`filepath.Walk` traversal becomes an explicit visit-event sequence folded
through the visit callback.  File sizes are `Int` (Go `int64`; the program
only copies them, never computes with them), and byte strings are `List Nat`.
-/

set_option maxRecDepth 10000

/-! String utilities mirroring the Go strings package as used by the program. -/

/-- Does `pre` occur at the start of the second list? (character-level model
of Go byte-level matching; every pattern the program uses is ASCII). -/
def hasPreL (pre : List Char) : List Char → Bool
  | [] => pre.isEmpty
  | c :: rest =>
    match pre with
    | [] => true
    | p :: ps => p == c && hasPreL ps rest

/-- Does `sub` occur contiguously anywhere in the second list? -/
def hasSubL (sub : List Char) : List Char → Bool
  | [] => sub.isEmpty
  | c :: rest => hasPreL sub (c :: rest) || hasSubL sub rest

/-- Model of Go `strings.Contains(s, sub)`. -/
def strContainsGo (s sub : String) : Bool := hasSubL sub.data s.data

/-- Model of Go `strings.Split(s, "/")` at the character level:
split into the (possibly empty) segments between `/` separators. -/
def splitSeg : List Char → List (List Char)
  | [] => [[]]
  | c :: rest =>
    match splitSeg rest with
    | [] => [[]]
    | s :: ss => if c = '/' then [] :: s :: ss else (c :: s) :: ss

/-- Model of Go `strings.Split(s, "/")`. -/
def splitSlash (s : String) : List String := (splitSeg s.data).map String.mk

/-- Model of Go `strings.Join(l, "/")`. -/
def joinSlash : List String → String
  | [] => ""
  | [s] => s
  | s :: s2 :: rest => s ++ "/" ++ joinSlash (s2 :: rest)

/-- Character-level join with `/`, the inverse of `splitSeg`. -/
def joinSegs : List (List Char) → List Char
  | [] => []
  | [s] => s
  | s :: s2 :: rest => s ++ '/' :: joinSegs (s2 :: rest)

/-- Does `suf` occur at the end of `s`? Model of `strings.HasSuffix`. -/
def hasSufL (suf s : List Char) : Bool := hasPreL suf.reverse s.reverse

/-- Model of Go `strings.TrimSpace`: drop whitespace from both ends (the
program only ever trims the trailing newline of ASCII git output). -/
def trimSpaceGo (s : String) : String :=
  String.mk ((s.data.dropWhile Char.isWhitespace).reverse.dropWhile Char.isWhitespace).reverse

/-- Model of Go `strings.TrimSuffix(s, suf)`. -/
def trimSuffixGo (s suf : String) : String :=
  if hasSufL suf.data s.data then String.mk (s.data.take (s.data.length - suf.data.length)) else s

/-! MD5 (the crypto/md5 library used by `md5String`), embedded from RFC 1321.
All arithmetic is on `Nat` with explicit reduction modulo `2 ^ 32`. -/

def u32 : Nat := 4294967296

def add32 (a b : Nat) : Nat := (a + b) % u32

def not32 (a : Nat) : Nat := 4294967295 - a % u32

def rotl32 (x s : Nat) : Nat := ((x % u32) * 2 ^ s + (x % u32) / 2 ^ (32 - s)) % u32

/-- The 64 MD5 sine-derived constants, K[i] = floor(abs(sin(i+1)) * 2^32). -/
def md5K : List Nat :=
  [ 3614090360, 3905402710, 606105819, 3250441966,
    4118548399, 1200080426, 2821735955, 4249261313,
    1770035416, 2336552879, 4294925233, 2304563134,
    1804603682, 4254626195, 2792965006, 1236535329,
    4129170786, 3225465664, 643717713, 3921069994,
    3593408605, 38016083, 3634488961, 3889429448,
    568446438, 3275163606, 4107603335, 1163531501,
    2850285829, 4243563512, 1735328473, 2368359562,
    4294588738, 2272392833, 1839030562, 4259657740,
    2763975236, 1272893353, 4139469664, 3200236656,
    681279174, 3936430074, 3572445317, 76029189,
    3654602809, 3873151461, 530742520, 3299628645,
    4096336452, 1126891415, 2878612391, 4237533241,
    1700485571, 2399980690, 4293915773, 2240044497,
    1873313359, 4264355552, 2734768916, 1309151649,
    4149444226, 3174756917, 718787259, 3951481745 ]

/-- The 64 MD5 per-round left-rotation amounts. -/
def md5S : List Nat :=
  [ 7, 12, 17, 22, 7, 12, 17, 22, 7, 12, 17, 22, 7, 12, 17, 22,
    5, 9, 14, 20, 5, 9, 14, 20, 5, 9, 14, 20, 5, 9, 14, 20,
    4, 11, 16, 23, 4, 11, 16, 23, 4, 11, 16, 23, 4, 11, 16, 23,
    6, 10, 15, 21, 6, 10, 15, 21, 6, 10, 15, 21, 6, 10, 15, 21 ]

structure MDState where
  a : Nat
  b : Nat
  c : Nat
  d : Nat

/-- One MD5 round `i` (0 ≤ i < 64) over the 16 message words `m`. -/
def md5Round (m : List Nat) (st : MDState) (i : Nat) : MDState :=
  let fg : Nat × Nat :=
    if i < 16 then ((st.b &&& st.c) ||| (not32 st.b &&& st.d), i)
    else if i < 32 then ((st.d &&& st.b) ||| (not32 st.d &&& st.c), (5 * i + 1) % 16)
    else if i < 48 then (st.b ^^^ st.c ^^^ st.d, (3 * i + 5) % 16)
    else (st.c ^^^ (st.b ||| not32 st.d), (7 * i) % 16)
  let f := add32 (add32 (add32 fg.1 st.a) (md5K.getD i 0)) (m.getD fg.2 0)
  ⟨st.d, add32 st.b (rotl32 f (md5S.getD i 0)), st.b, st.c⟩

/-- Process one 512-bit chunk (16 little-endian 32-bit words). -/
def md5Chunk (st : MDState) (m : List Nat) : MDState :=
  let r := (List.range 64).foldl (md5Round m) st
  ⟨add32 st.a r.a, add32 st.b r.b, add32 st.c r.c, add32 st.d r.d⟩

/-- UTF-8 bytes of one character (Go strings are UTF-8 byte sequences). -/
def utf8Bytes (c : Char) : List Nat :=
  let n := c.toNat
  if n < 128 then [n]
  else if n < 2048 then [192 + n / 64, 128 + n % 64]
  else if n < 65536 then [224 + n / 4096, 128 + n / 64 % 64, 128 + n % 64]
  else [240 + n / 262144, 128 + n / 4096 % 64, 128 + n / 64 % 64, 128 + n % 64]

/-- The UTF-8 bytes of a string, as written by `io.WriteString`. -/
def strBytes (s : String) : List Nat := s.data.foldr (fun c acc => utf8Bytes c ++ acc) []

/-- MD5 padding: append the byte 0x80, zero-pad until the length is 56 mod 64,
then append the 64-bit little-endian bit length. -/
def md5Pad (msg : List Nat) : List Nat :=
  let len := msg.length
  msg ++ 128 :: List.replicate ((119 - len % 64) % 64) 0
      ++ (List.range 8).map (fun i => 8 * len / 2 ^ (8 * i) % 256)

/-- Group bytes into little-endian 32-bit words. -/
def toWords : List Nat → List Nat
  | b0 :: b1 :: b2 :: b3 :: rest =>
      (b0 + 256 * b1 + 65536 * b2 + 16777216 * b3) :: toWords rest
  | _ => []

/-- Split into 64-byte chunks; the fuel (first argument) is always at least
the number of chunks, so with fuel equal to the list length no chunk is
dropped. -/
def chunksF : Nat → List Nat → List (List Nat)
  | 0, _ => []
  | _ + 1, [] => []
  | n + 1, l@(_ :: _) => l.take 64 :: chunksF n (l.drop 64)

/-- Little-endian bytes of one 32-bit state word. -/
def wordLE (x : Nat) : List Nat := [x % 256, x / 256 % 256, x / 65536 % 256, x / 16777216 % 256]

/-- The 16-byte MD5 digest of the UTF-8 bytes of a string (the model of
`md5.New`, `io.WriteString`, `Sum(nil)`). -/
def md5Digest (s : String) : List Nat :=
  let padded := md5Pad (strBytes s)
  let st := (chunksF padded.length padded).foldl (fun st ch => md5Chunk st (toWords ch))
    ⟨1732584193, 4023233417, 2562383102, 271733878⟩
  wordLE st.a ++ wordLE st.b ++ wordLE st.c ++ wordLE st.d

/-- Lowercase hex digit for `n < 16`. -/
def hexDigit (n : Nat) : Char :=
  if n < 10 then Char.ofNat (48 + n) else Char.ofNat (87 + n)

/-- A lowercase hexadecimal character (0-9 or a-f). -/
def isHexLowerChar (c : Char) : Bool :=
  ('0' ≤ c && c ≤ '9') || ('a' ≤ c && c ≤ 'f')

/-- Hex rendering of a byte list as by the format verb x: two lowercase hex
digits per byte. -/
def bytesToHex (l : List Nat) : String :=
  String.mk (l.foldr (fun b acc => hexDigit (b / 16 % 16) :: hexDigit (b % 16) :: acc) [])

/-- Function `md5String` from the source: the hex digest of the UTF-8 bytes
of `s`. -/
def md5String (s : String) : String := bytesToHex (md5Digest s)

/-! The file-tree data model and builder: `FileNode`, `setDeepNode`,
`loadRepoFiles` and its visit callback. -/

/-- Structure `FileNode` from the source; the Go `map[string]*FileNode` is
modelled as an association list keyed by child name (the program only reads
and writes the map by key). -/
inductive FileNode where
  | mk (type : String) (name : String) (size : Int) (url : String)
       (children : List (String × FileNode))

def FileNode.type : FileNode → String
  | ⟨t, _, _, _, _⟩ => t

def FileNode.name : FileNode → String
  | ⟨_, n, _, _, _⟩ => n

def FileNode.size : FileNode → Int
  | ⟨_, _, s, _, _⟩ => s

def FileNode.url : FileNode → String
  | ⟨_, _, _, u, _⟩ => u

def FileNode.children : FileNode → List (String × FileNode)
  | ⟨_, _, _, _, c⟩ => c

/-- Go map read `m[k]` with comma-ok. -/
def lookupChild : List (String × FileNode) → String → Option FileNode
  | [], _ => none
  | (k2, v) :: rest, k => if k2 == k then some v else lookupChild rest k

/-- Go map write `m[k] = v`: replaces the binding for `k` if present. -/
def insertChild : List (String × FileNode) → String → FileNode → List (String × FileNode)
  | [], k, v => [(k, v)]
  | (k2, v2) :: rest, k, v =>
    if k2 == k then (k, v) :: rest else (k2, v2) :: insertChild rest k v

/-- Map write on a node, the effect of `b.Children[k] = v`. -/
def setChild (b : FileNode) (k : String) (v : FileNode) : FileNode :=
  ⟨b.type, b.name, b.size, b.url, insertChild b.children k v⟩

/-- Function `setDeepNode` from the source.  The Go original mutates a
descendant in place; here the rebuilt root is returned.  The Go code recurses
only while `ok && len(keys) > 1` and then executes `b.Children[f.Name] = f`,
so the insertion happens at the node reached after `len(keys) - 1` descents. -/
def setDeepNode : FileNode → List String → FileNode → FileNode
  | b, [], _ => b
  | b, k :: rest, f =>
    match lookupChild b.children k with
    | some v =>
      if rest.length > 0 then setChild b k (setDeepNode v rest f)
      else setChild b f.name f
    | none => if rest.length = 0 then setChild b f.name f else b

/-- The `os.FileInfo` data consumed by the visit callback. -/
structure FInfo where
  name : String
  size : Int
  isDir : Bool

/-- The node allocated by the visit callback before any URL is assigned. -/
def mkNode (f : FInfo) : FileNode :=
  ⟨if f.isDir then "dir" else "file", f.name, f.size, "", []⟩

/-- The file address built by the callback:
`fmt.Sprintf("/repositories/%s/files/%s", repo.ID,
strings.Join(strings.Split(path, "/")[1:], "/"))`. -/
def fileURL (repoId path : String) : String :=
  "/repositories/" ++ repoId ++ "/files/" ++ joinSlash ((splitSlash path).drop 1)

/-- URL assignment from the callback: only nodes whose Type is file get one. -/
def withURL (repoId path : String) (n : FileNode) : FileNode :=
  if n.type == "file" then ⟨n.type, n.name, n.size, fileURL repoId path, n.children⟩ else n

/-- One step of `visitFunc` (the closure inside `loadRepoFiles`) on an entry
that was stat-ed successfully; `first` is the captured root variable. -/
def visitStep (repoId : String) (first : Option FileNode) (path : String) (f : FInfo) :
    Option FileNode :=
  if strContainsGo path ".git" then first
  else
    let node := mkNode f
    match first with
    | none => some node
    | some root =>
      let node := withURL repoId path node
      let parentPathParts := (splitSlash path).drop 1
      if parentPathParts.length ≤ 1 then some (setChild root node.name node)
      else some (setDeepNode root parentPathParts.dropLast node)

/-- A filesystem model for `filepath.Walk`: a first-child/next-sibling tree.
The `next` field chains siblings in the order the directory listing yields
them (`readDirNames` returns names sorted; no property below depends on
sibling order, which the walk preserves).  A directory carries a `readable`
flag: listing an unreadable directory fails, so the walk visits the directory
itself but none of its children, and the listing error is delivered to a
callback that ignores its `err` argument. -/
inductive EFS where
  | nilE : EFS
  | file (name : String) (size : Int) (next : EFS)
  | dir (name : String) (size : Int) (readable : Bool) (children : EFS) (next : EFS)

/-- The events `filepath.Walk` delivers to the callback. -/
inductive VisitEv where
  | ok (path : String) (info : FInfo)
  | badInfo (path : String)

/-- Visits of a chain of entries whose parent directory has path `p`. -/
def walkCh (p : String) : EFS → List VisitEv
  | .nilE => []
  | .file n sz next => .ok (p ++ "/" ++ n) ⟨n, sz, false⟩ :: walkCh p next
  | .dir n sz r ch next =>
    (.ok (p ++ "/" ++ n) ⟨n, sz, true⟩ ::
      (if r then walkCh (p ++ "/" ++ n) ch else [])) ++ walkCh p next

/-- Visits of the root entry of the walk (its siblings are not walked). -/
def walkRoot (p : String) : EFS → List VisitEv
  | .nilE => []
  | .file n sz _ => [.ok p ⟨n, sz, false⟩]
  | .dir n sz r ch _ => .ok p ⟨n, sz, true⟩ :: (if r then walkCh p ch else [])

/-- Visit sequence of `filepath.Walk(root, fn)`: if the root cannot be
stat-ed, the callback is invoked once with a nil `FileInfo`. -/
def walkTop (root : String) : Option EFS → List VisitEv
  | none => [.badInfo root]
  | some t => walkRoot root t

/-- Outcome of `loadRepoFiles`: the callback dereferences its `FileInfo`
without a nil check, so a visit carrying no info panics unless the path was
already skipped by the `.git` test. -/
inductive BuildOut where
  | panicked
  | done (files : Option FileNode)

def runVisits (repoId : String) : Option FileNode → List VisitEv → BuildOut
  | first, [] => .done first
  | first, .ok p i :: rest => runVisits repoId (visitStep repoId first p i) rest
  | first, .badInfo p :: rest =>
    if strContainsGo p ".git" then runVisits repoId first rest else .panicked

/-- Function `loadRepoFiles` from the source: walk the tree rooted at the
repository id and return the `first` node, the value stored into
`repo.Files`.  The error returned by `filepath.Walk` is discarded. -/
def loadRepoFiles (repoId : String) (t : Option EFS) : BuildOut :=
  runVisits repoId none (walkTop repoId t)

/-- Every event list produced by the walk of an existing entry is panic-free. -/
def allOk : List VisitEv → Bool
  | [] => true
  | .ok _ _ :: rest => allOk rest
  | .badInfo _ :: _ => false

/-! Helpers for reading results out of a build. -/

def rootOf : BuildOut → Option FileNode
  | .panicked => none
  | .done f => f

def childAt : Option FileNode → String → Option FileNode
  | none, _ => none
  | some n, k => lookupChild n.children k

def urlAt : Option FileNode → Option String
  | none => none
  | some n => some n.url

def childNames : Option FileNode → List String
  | none => []
  | some n => n.children.map Prod.fst

/-! Handlers: environment, existence test, repository operations. -/

/-- Result of `os.Stat`: success, a not-exist error, or any other error. -/
inductive StatRes where
  | ok
  | notExist
  | otherErr

/-- A repository as decoded and rendered by the handlers. -/
structure Repo where
  id : String
  name : String
  url : String
  files : Option FileNode

/-- The process environment a request runs against: `stat` answers `os.Stat`,
`gitOut` is the raw output of the git remote-url query run in a directory
(error when the command fails), `fsAt` is the filesystem subtree at a path
(`none` when the path is missing), `cloneOK` tells whether a clone of the url
into the destination succeeds, and `removeOK` whether `os.RemoveAll`
succeeds. -/
structure Env where
  stat : String → StatRes
  gitOut : String → Except Unit String
  fsAt : String → Option EFS
  cloneOK : String → String → Bool
  removeOK : String → Bool

/-- Function `fileExists` from the source: only a not-exist stat error yields
`false`; success and every other stat error yield `true`. -/
def fileExists (env : Env) (filename : String) : Bool :=
  match env.stat ("./" ++ filename) with
  | .notExist => false
  | _ => true

/-- Function `gitRemote` from the source: the trimmed command output. -/
def gitRemote (env : Env) (repoPath : String) : Except Unit String :=
  match env.gitOut repoPath with
  | .error e => .error e
  | .ok u => .ok (trimSpaceGo u)

/-- Function `repoName` from the source: the last `/`-segment of the remote
URL with a trailing `.git` suffix stripped. -/
def repoName (env : Env) (repoPath : String) : Except Unit String :=
  match gitRemote env repoPath with
  | .error e => .error e
  | .ok remote =>
    let parts := splitSlash remote
    .ok (trimSuffixGo (parts.getLastD "") ".git")

/-- Side effects a handler run can perform. -/
inductive Act where
  | clone (url : String) (dest : String)
  | removeAll (path : String)

/-- Handler outcome: an HTTP error, a raw command error (surfaced as a 500),
a panic in the handler (recovered into a 500), or a success payload. -/
inductive HOut where
  | httpErr (status : Nat) (msg : String)
  | cmdErr
  | panicked
  | okRepo (r : Repo)
  | okRepos (rs : List Repo)
  | okEmpty
  | okBytes (b : List Nat)

/-- Constant `errNotFound` from the source. -/
def errNotFound : HOut := .httpErr 404 "not found"

/-- The body of a create request after JSON decoding (`none` models a decode
error; only the url and name fields matter to the handler). -/
structure CreateReq where
  url : String
  name : String

/-- Handler `createRepo` from the source, paired with the effects it
performed. -/
def createRepo (env : Env) (body : Option CreateReq) : HOut × List Act :=
  match body with
  | none => (.httpErr 400 "decode error", [])
  | some req =>
    if req.url == "" then (.httpErr 400 "url is required", [])
    else
      let id := md5String req.url
      if fileExists env id then (.httpErr 400 "repo already exists", [])
      else if !env.cloneOK req.url id then (.cmdErr, [.clone req.url id])
      else
        match loadRepoFiles id (env.fsAt id) with
        | .panicked => (.panicked, [.clone req.url id])
        | .done files =>
          (.okRepo { id := id, name := req.name, url := req.url, files := files },
           [.clone req.url id])

/-- One directory entry of the storage root as `Readdir` reports it. -/
structure DirEnt where
  name : String
  isDir : Bool

/-- Run of hexadecimal characters of a given length starting here. -/
def hexRunFrom : List Char → Nat → Bool
  | _, 0 => true
  | [], _ + 1 => false
  | c :: rest, n + 1 => isHexLowerChar c && hexRunFrom rest n

/-- Run of hexadecimal characters of a given length anywhere in the list. -/
def hasHexRun : List Char → Nat → Bool
  | l, n => hexRunFrom l n || (match l with | [] => false | _ :: t => hasHexRun t n)

/-- Model of `regexpMD5.MatchString`: the regexp `[0-9a-f]{32}` is unanchored,
so it matches any name containing a run of 32 consecutive lowercase hex
characters. -/
def matchesMD5 (s : String) : Bool := hasHexRun s.data 32

/-- Handler `listRepos` from the source, folded over the storage-root
listing. -/
def listReposAux (env : Env) : List DirEnt → HOut
  | [] => .okRepos []
  | e :: rest =>
    if e.isDir && matchesMD5 e.name then
      match gitRemote env e.name with
      | .error _ => .cmdErr
      | .ok remote =>
        match repoName env e.name with
        | .error _ => .cmdErr
        | .ok nm =>
          match loadRepoFiles e.name (env.fsAt e.name) with
          | .panicked => .panicked
          | .done files =>
            match listReposAux env rest with
            | .okRepos rs =>
              .okRepos ({ id := e.name, name := nm, url := remote, files := files } :: rs)
            | other => other
    else listReposAux env rest

/-- Handler `getRepo` from the source. -/
def getRepo (env : Env) (id : String) : HOut :=
  if !fileExists env id then errNotFound
  else
    match gitRemote env id with
    | .error _ => .cmdErr
    | .ok remote =>
      match repoName env id with
      | .error _ => .cmdErr
      | .ok nm =>
        match loadRepoFiles id (env.fsAt id) with
        | .panicked => .panicked
        | .done files => .okRepo { id := id, name := nm, url := remote, files := files }

/-- Handler `deleteRepo` from the source, paired with the effects it
performed. -/
def deleteRepo (env : Env) (id : String) : HOut × List Act :=
  if !fileExists env id then (errNotFound, [])
  else if env.removeOK id then (.okEmpty, [.removeAll id])
  else (.cmdErr, [.removeAll id])

/-! Raw file read and write handlers over a flat file store mapping a path to
content and mode, the granularity at which `os.Open` and `ioutil.WriteFile`
act. -/

structure FileData where
  content : List Nat
  mode : Nat

def lookupFS : List (String × FileData) → String → Option FileData
  | [], _ => none
  | (k2, v) :: rest, k => if k2 == k then some v else lookupFS rest k

/-- Model of `ioutil.WriteFile`: create, or truncate and write. -/
def writeFS : List (String × FileData) → String → FileData → List (String × FileData)
  | [], k, v => [(k, v)]
  | (k2, v2) :: rest, k, v =>
    if k2 == k then (k, v) :: rest else (k2, v2) :: writeFS rest k v

/-- Handler `getRepoFile` from the source: open `id/path` and stream its
bytes; a missing file answers the not-found error. -/
def getRepoFile (fs : List (String × FileData)) (id path : String) : HOut :=
  let filePath := id ++ "/" ++ path
  match lookupFS fs filePath with
  | none => errNotFound
  | some fd => .okBytes fd.content

/-- Handler `setRepoFile` from the source: the target must already open
successfully; its previous mode is reused for the write. -/
def setRepoFile (fs : List (String × FileData)) (id path : String) (body : List Nat) :
    HOut × List (String × FileData) :=
  let filePath := id ++ "/" ++ path
  match lookupFS fs filePath with
  | none => (errNotFound, fs)
  | some fd => (.okEmpty, writeFS fs filePath ⟨body, fd.mode⟩)

/-! The path classifier the specification names: the decision made by the
first lines of the visit callback. -/

inductive PKind where
  | skip
  | fileK
  | dirK
deriving DecidableEq

def classify (path : String) (isDir : Bool) : PKind :=
  if strContainsGo path ".git" then .skip
  else if isDir then .dirK else .fileK

/-- Predicate: `.git` occurs as a whole `/`-separated segment of the path. -/
def hasDotGitSeg (path : String) : Bool :=
  (splitSeg path.data).any (fun s => s == ".git".data)

/-- Exact identifier format: exactly 32 lowercase hex characters. -/
def isExactMD5 (s : String) : Bool := s.length == 32 && s.data.all isHexLowerChar

/-! Concrete inputs used by individual claims. -/

def idC1 : String := "0123456789abcdef0123456789abcdef"

def fsC1 : EFS :=
  .dir idC1 160 true
    (.dir ".git" 96 true (.file "HEAD" 23 .nilE)
      (.file "a.txt" 10
        (.dir "sub" 96 true (.file "b.txt" 5 .nilE) .nilE)))
    .nilE

def fsC3 : EFS := .dir "r" 96 true (.file "a.txt" 10 .nilE) .nilE

def nameC6 : String := "aaaaaaaaaaaaaaaaaaaaaaaaaaaaaaaaa"

def envC5 : Env :=
  { stat := fun _ => .ok, gitOut := fun _ => .ok "u",
    fsAt := fun _ => some (.file "x" 1 .nilE),
    cloneOK := fun _ _ => true, removeOK := fun _ => true }

def envC6 : Env :=
  { stat := fun _ => .ok, gitOut := fun _ => .ok "u",
    fsAt := fun _ => some (.file "x" 1 .nilE),
    cloneOK := fun _ _ => true, removeOK := fun _ => true }

def envC6W : Env :=
  { stat := fun _ => .ok, gitOut := fun _ => .ok "u",
    fsAt := fun _ => some (.file "x" 1 .nilE),
    cloneOK := fun _ _ => true, removeOK := fun _ => true }

def envC10 : Env :=
  { stat := fun _ => .otherErr, gitOut := fun _ => .ok "u",
    fsAt := fun _ => some (.file "x" 1 .nilE),
    cloneOK := fun _ _ => true, removeOK := fun _ => true }

/-! Supporting lemmas. -/

theorem strDataEq {a b : String} (h : a.data = b.data) : a = b := by
  cases a; cases b; exact congrArg String.mk h

theorem strAppData (a b : String) : (a ++ b).data = a.data ++ b.data := rfl

theorem strEta (s : String) : String.mk s.data = s := rfl

theorem splitSeg_cons_ex (l : List Char) : ∃ s ss, splitSeg l = s :: ss := by
  induction l with
  | nil => exact ⟨[], [], rfl⟩
  | cons c t ih =>
    rcases ih with ⟨s, ss, h⟩
    by_cases hc : c = '/'
    · exact ⟨[], s :: ss, by simp [splitSeg, h, hc]⟩
    · exact ⟨c :: s, ss, by simp [splitSeg, h, hc]⟩

theorem splitSeg_head_pre (l : List Char) :
    ∀ s ss, splitSeg l = s :: ss → hasPreL s l = true := by
  induction l with
  | nil =>
    intro s ss h
    simp [splitSeg] at h
    simp [h.1, hasPreL]
  | cons c t ih =>
    intro s ss h
    rcases splitSeg_cons_ex t with ⟨s0, ss0, h0⟩
    by_cases hc : c = '/'
    · simp [splitSeg, h0, hc] at h
      simp [h.1, hasPreL]
    · simp [splitSeg, h0, hc] at h
      obtain ⟨h1, h2⟩ := h
      subst h1
      simp [hasPreL, ih s0 ss0 h0]

theorem mem_splitSeg_hasSub (l : List Char) :
    ∀ s, s ∈ splitSeg l → hasSubL s l = true := by
  induction l with
  | nil =>
    intro s hs
    simp [splitSeg] at hs
    simp [hs, hasSubL]
  | cons c t ih =>
    intro s hs
    rcases splitSeg_cons_ex t with ⟨s0, ss0, h0⟩
    by_cases hc : c = '/'
    · simp [splitSeg, h0, hc] at hs
      rcases hs with h | h
      · simp [h, hasSubL, hasPreL]
      · have := ih s (by rw [h0]; exact List.mem_cons.mpr h)
        simp [hasSubL, this]
    · simp [splitSeg, h0, hc] at hs
      rcases hs with h | h
      · have hpre := splitSeg_head_pre t s0 ss0 h0
        simp [h, hasSubL, hasPreL, hpre]
      · have := ih s (by rw [h0]; exact List.mem_cons_of_mem _ h)
        simp [hasSubL, this]

theorem splitSeg_append (idL relL : List Char) (h : ('/' : Char) ∉ idL) :
    splitSeg (idL ++ '/' :: relL) = idL :: splitSeg relL := by
  induction idL with
  | nil =>
    rcases splitSeg_cons_ex relL with ⟨s, ss, hs⟩
    simp [splitSeg, hs]
  | cons c t ih =>
    have hc : c ≠ '/' := fun hcc => h (by simp [hcc])
    have ht : ('/' : Char) ∉ t := fun htt => h (List.mem_cons_of_mem _ htt)
    simp [splitSeg, ih ht, hc]

theorem joinSegs_splitSeg (l : List Char) : joinSegs (splitSeg l) = l := by
  induction l with
  | nil => rfl
  | cons c t ih =>
    rcases splitSeg_cons_ex t with ⟨s0, ss0, h0⟩
    rw [h0] at ih
    by_cases hc : c = '/'
    · simp [splitSeg, h0, hc, joinSegs]
      cases ss0 with
      | nil => simpa [joinSegs] using ih
      | cons s1 ss1 => simpa [joinSegs] using ih
    · simp [splitSeg, h0, hc]
      cases ss0 with
      | nil => simp [joinSegs] at ih ⊢; simp [ih]
      | cons s1 ss1 => simp [joinSegs] at ih ⊢; simp [ih]

theorem joinSlash_map_mk (l : List (List Char)) :
    joinSlash (l.map String.mk) = String.mk (joinSegs l) := by
  induction l with
  | nil => rfl
  | cons s rest ih =>
    cases rest with
    | nil => rfl
    | cons s2 rest2 =>
      show String.mk s ++ "/" ++ joinSlash (List.map String.mk (s2 :: rest2)) = _
      rw [ih]
      apply strDataEq
      simp [strAppData, joinSegs]

theorem allOk_append (a b : List VisitEv) : allOk (a ++ b) = (allOk a && allOk b) := by
  induction a with
  | nil => simp [allOk]
  | cons ev rest ih =>
    cases ev with
    | ok p i => simp [allOk, ih]
    | badInfo p => simp [allOk]

theorem allOk_walkCh (t : EFS) : ∀ p, allOk (walkCh p t) = true := by
  induction t with
  | nilE => intro p; rfl
  | file n sz next ih => intro p; simp [walkCh, allOk, ih]
  | dir n sz r ch next ihc ihn =>
    intro p
    by_cases hr : r <;> simp [walkCh, hr, allOk, allOk_append, ihc, ihn]

theorem allOk_walkRoot (t : EFS) (p : String) : allOk (walkRoot p t) = true := by
  cases t with
  | nilE => rfl
  | file n sz next => rfl
  | dir n sz r ch next =>
    by_cases hr : r <;> simp [walkRoot, hr, allOk, allOk_walkCh]

theorem runVisits_allOk (repoId : String) (evs : List VisitEv) :
    ∀ first, allOk evs = true → ∃ f, runVisits repoId first evs = .done f := by
  induction evs with
  | nil => intro first _; exact ⟨first, rfl⟩
  | cons ev rest ih =>
    intro first h
    cases ev with
    | ok p i => exact ih _ (by simpa [allOk] using h)
    | badInfo p => simp [allOk] at h

theorem loadRepoFiles_done (repoId : String) (t : EFS) :
    ∃ f, loadRepoFiles repoId (some t) = .done f :=
  runVisits_allOk repoId (walkTop repoId (some t)) none (allOk_walkRoot t repoId)

theorem lookupFS_writeFS (fs : List (String × FileData)) (k : String) (v : FileData) :
    lookupFS (writeFS fs k v) k = some v := by
  induction fs with
  | nil => simp [writeFS, lookupFS]
  | cons kv rest ih =>
    by_cases h : kv.1 == k
    · simp [writeFS, h, lookupFS]
    · simp [writeFS, h, lookupFS, ih]

theorem hexDigit_hex : ∀ n, n < 16 → isHexLowerChar (hexDigit n) = true := by decide

theorem md5Digest_length (s : String) : (md5Digest s).length = 16 := by
  simp [md5Digest, wordLE]

theorem bytesToHex_data (l : List Nat) :
    (bytesToHex l).data =
      l.foldr (fun b acc => hexDigit (b / 16 % 16) :: hexDigit (b % 16) :: acc) [] := rfl

theorem bytesToHex_length (l : List Nat) : (bytesToHex l).length = 2 * l.length := by
  have : ∀ m : List Nat,
      (m.foldr (fun b acc => hexDigit (b / 16 % 16) :: hexDigit (b % 16) :: acc) []).length
        = 2 * m.length := by
    intro m
    induction m with
    | nil => rfl
    | cons b rest ih => simp [List.foldr, ih]; ring
  show (bytesToHex l).data.length = 2 * l.length
  rw [bytesToHex_data]
  exact this l

theorem bytesToHex_all_hex (l : List Nat) :
    (bytesToHex l).data.all isHexLowerChar = true := by
  rw [bytesToHex_data]
  induction l with
  | nil => rfl
  | cons b rest ih =>
    simp only [List.foldr, List.all_cons, ih, Bool.and_true]
    rw [hexDigit_hex _ (Nat.mod_lt _ (by omega)), hexDigit_hex _ (Nat.mod_lt _ (by omega))]
    rfl

/-- Sanity check of the MD5 embedding against the RFC 1321 test vector for
the empty message. -/
theorem md5String_rfc_empty : md5String "" = "d41d8cd98f00b204e9800998ecf8427e" := by decide

/-- Sanity check of the MD5 embedding against the RFC 1321 test vector for
the message abc. -/
theorem md5String_rfc_abc : md5String "abc" = "900150983cd24fb0d6963f7d28e17f72" := by decide

/-! The claims. -/

/-- C1: building the tree over a working directory holding a 10-byte
`a.txt`, a 5-byte `sub/b.txt` and `.git/HEAD` yields a root whose children
are `a.txt`, `sub` and — misplaced — `b.txt` itself: the children map of
`sub` stays empty, so `sub/b.txt` is not inserted at its parent path
(`setDeepNode` stops one level short and inserts into the parent of the
parent).  Nothing derived from `.git` appears, and the misplaced file node
still carries the `sub/b.txt` relative path in its address. -/
theorem c1_build_misplaces_nested_file :
    childNames (rootOf (loadRepoFiles idC1 (some fsC1))) = ["a.txt", "sub", "b.txt"] ∧
    childNames (childAt (rootOf (loadRepoFiles idC1 (some fsC1))) "sub") = [] ∧
    childAt (childAt (rootOf (loadRepoFiles idC1 (some fsC1))) "sub") "b.txt" = none ∧
    childAt (rootOf (loadRepoFiles idC1 (some fsC1))) ".git" = none ∧
    urlAt (childAt (rootOf (loadRepoFiles idC1 (some fsC1))) "b.txt") =
      some ("/repositories/" ++ idC1 ++ "/files/sub/b.txt") ∧
    urlAt (childAt (rootOf (loadRepoFiles idC1 (some fsC1))) "a.txt") =
      some ("/repositories/" ++ idC1 ++ "/files/a.txt") :=
  ⟨by decide, by decide, rfl, rfl, by decide, by decide⟩

/-- C2 counterexample: the classifier skips `r/.gitignore`, a path that does
not contain `.git` as a `/`-separated segment, so Skip is not returned
exactly for metadata-segment paths. -/
theorem c2_counterexample :
    classify "r/.gitignore" false = .skip ∧ hasDotGitSeg "r/.gitignore" = false := by
  decide

/-- C2 (amended): the classifier is pure and total; it returns Skip exactly
for paths containing `.git` as a substring — in particular for every path
with a `.git` segment, so the whole metadata subtree is excluded, but also
for paths such as `.gitignore` that merely contain the substring — and
Directory or File according to the directory flag for all other entries. -/
theorem c2_classifier_substring (path : String) (d : Bool) :
    (hasDotGitSeg path = true → classify path d = .skip) ∧
    (classify path d = .skip ↔ strContainsGo path ".git" = true) ∧
    (strContainsGo path ".git" = false →
      classify path d = if d then .dirK else .fileK) := by
  refine ⟨?_, ?_, ?_⟩
  · intro h
    simp only [hasDotGitSeg, List.any_eq_true] at h
    rcases h with ⟨s, hmem, hbeq⟩
    have hs : s = ".git".data := by simpa using hbeq
    have hsub : hasSubL ".git".data path.data = true := by
      rw [← hs]; exact mem_splitSeg_hasSub path.data s hmem
    simp [classify, strContainsGo, hsub]
  · cases hc : strContainsGo path ".git"
    · by_cases hd : d <;> simp [classify, hc, hd]
    · simp [classify, hc]
  · intro h
    simp [classify, h]

theorem c2_witness : classify "a/.git/HEAD" false = .skip :=
  (c2_classifier_substring "a/.git/HEAD" false).1 (by decide)

/-- C3 counterexample: the address stored on a created file node carries a
leading slash: for a repository `r` holding `a.txt`, the address of the built
node is `/repositories/r/files/a.txt`, not `repositories/r/files/a.txt`. -/
theorem c3_counterexample :
    urlAt (childAt (rootOf (loadRepoFiles "r" (some fsC3))) "a.txt") ≠
      some "repositories/r/files/a.txt" ∧
    urlAt (childAt (rootOf (loadRepoFiles "r" (some fsC3))) "a.txt") =
      some "/repositories/r/files/a.txt" := by
  decide

/-- C3 (amended): every non-root file entry visited at path
`{id}/{relativePath}` gets the address
`/repositories/{id}/files/{relativePath}` — with a leading slash — where the
relative path keeps its `/` separators. -/
theorem c3_file_address (id rel : String) (f : FInfo)
    (hid : ('/' : Char) ∉ id.data) (hf : f.isDir = false) :
    (withURL id (id ++ "/" ++ rel) (mkNode f)).url =
      "/repositories/" ++ id ++ "/files/" ++ rel := by
  have hdata : (id ++ "/" ++ rel).data = id.data ++ '/' :: rel.data := by
    simp [strAppData]
  have hsplit : splitSlash (id ++ "/" ++ rel) =
      String.mk id.data :: (splitSeg rel.data).map String.mk := by
    simp [splitSlash, hdata, splitSeg_append id.data rel.data hid]
  have hjoin : joinSlash ((splitSlash (id ++ "/" ++ rel)).tail) = rel := by
    rw [hsplit]
    simp only [List.tail_cons]
    rw [joinSlash_map_mk, joinSegs_splitSeg, strEta]
  simp [withURL, mkNode, hf, fileURL, FileNode.type, FileNode.url, FileNode.name,
    FileNode.size, FileNode.children, List.drop_one, hjoin]

theorem c3_witness :
    (withURL "ab" ("ab" ++ "/" ++ "sub/b.txt") (mkNode ⟨"b.txt", 5, false⟩)).url =
      "/repositories/" ++ "ab" ++ "/files/" ++ "sub/b.txt" :=
  c3_file_address "ab" "sub/b.txt" ⟨"b.txt", 5, false⟩ (by decide) rfl

/-- C4 counterexample: a build over an unreadable root directory neither
fails with NotFound/IOError nor withholds a tree — it reports success with a
root-only tree; and a build over a missing root panics in the visit callback
rather than reporting NotFound or IOError. -/
theorem c4_counterexample :
    loadRepoFiles "ab" (some (.dir "ab" 0 false .nilE .nilE)) =
      .done (some ⟨"dir", "ab", 0, "", []⟩) ∧
    loadRepoFiles "ab" none = .panicked :=
  ⟨rfl, rfl⟩

/-- C4 (amended): the walk error is discarded.  If the root path is missing,
the visit callback receives a nil FileInfo and dereferences it, so the build
panics (recovered into a 500); if the root directory exists but cannot be
listed, the listing error is ignored and the build succeeds with a tree
holding just the root node. -/
theorem c4_bad_root_behavior (id nm : String) (sz : Int) (ch next : EFS)
    (h : strContainsGo id ".git" = false) :
    loadRepoFiles id none = .panicked ∧
    loadRepoFiles id (some (.dir nm sz false ch next)) =
      .done (some ⟨"dir", nm, sz, "", []⟩) := by
  constructor
  · simp [loadRepoFiles, walkTop, runVisits, h]
  · simp [loadRepoFiles, walkTop, walkRoot, runVisits, visitStep, h, mkNode]

theorem c4_witness :
    loadRepoFiles "zz" none = .panicked ∧
    loadRepoFiles "zz" (some (.dir "zz" 7 false .nilE .nilE)) =
      .done (some ⟨"dir", "zz", 7, "", []⟩) :=
  c4_bad_root_behavior "zz" "zz" 7 .nilE .nilE (by decide)

/-- C5: a create request whose URL digests to an identifier that already
exists on disk is rejected with a 400 (a 4xx client error) before any clone
is attempted: no effect is performed, so the existing directory is
untouched. -/
theorem c5_create_conflict (env : Env) (req : CreateReq)
    (hurl : req.url ≠ "") (hex : fileExists env (md5String req.url) = true) :
    createRepo env (some req) = (.httpErr 400 "repo already exists", []) ∧
    (400 : Nat) / 100 = 4 := by
  have h2 : (req.url == "") = false := beq_eq_false_iff_ne.mpr hurl
  exact ⟨by simp [createRepo, h2, hex], rfl⟩

theorem c5_witness :
    createRepo envC5 (some ⟨"u", "n"⟩) = (.httpErr 400 "repo already exists", []) :=
  (c5_create_conflict envC5 ⟨"u", "n"⟩ (by decide) rfl).1

/-- C6 counterexample: a storage-root directory named with 33 letters a —
not a 32-character identifier — is enumerated as a repository, because the
`[0-9a-f]{32}` match is unanchored. -/
theorem c6_counterexample :
    listReposAux envC6 [⟨nameC6, true⟩] =
      .okRepos [{ id := nameC6, name := "u", url := "u",
                  files := some ⟨"file", "x", 1, "", []⟩ }] ∧
    isExactMD5 nameC6 = false ∧ matchesMD5 nameC6 = true := by
  refine ⟨rfl, by decide, by decide⟩

/-- C6 (amended): when the provider queries succeed and each matched
directory exists, enumeration returns exactly one Repository per immediate
child that is a directory whose name contains a run of 32 consecutive
lowercase hex characters (the unanchored `[0-9a-f]{32}` match), in listing
order; all other entries — files, and directories without such a run — are
excluded. -/
theorem c6_list_filter (env : Env) (entries : List DirEnt)
    (hGit : ∀ p, ∃ s, env.gitOut p = .ok s)
    (hFS : ∀ p, ∃ t, env.fsAt p = some t) :
    ∃ rs, listReposAux env entries = .okRepos rs ∧
      rs.map Repo.id =
        (entries.filter (fun e => e.isDir && matchesMD5 e.name)).map DirEnt.name := by
  induction entries with
  | nil => exact ⟨[], rfl, rfl⟩
  | cons e rest ih =>
    rcases ih with ⟨rs, hrs, hmap⟩
    by_cases hg : (e.isDir && matchesMD5 e.name) = true
    · rcases hGit e.name with ⟨s, hs⟩
      rcases hFS e.name with ⟨t, ht⟩
      rcases loadRepoFiles_done e.name t with ⟨f, hf⟩
      refine ⟨{ id := e.name,
                name := trimSuffixGo ((splitSlash (trimSpaceGo s)).getLastD "") ".git",
                url := trimSpaceGo s, files := f } :: rs, ?_, ?_⟩
      · simp [listReposAux, hg, gitRemote, repoName, hs, ht, hf, hrs]
      · simp [List.filter, hg, hmap]
    · have hg' : (e.isDir && matchesMD5 e.name) = false := by
        simpa using hg
      exact ⟨rs, by simp [listReposAux, hg'] at hrs ⊢; exact hrs,
             by simp [List.filter, hg', hmap]⟩

theorem c6_witness :
    ∃ rs, listReposAux envC6W
        [⟨"0123456789abcdef0123456789abcdee", true⟩, ⟨"README.md", false⟩] = .okRepos rs ∧
      rs.map Repo.id =
        (([⟨"0123456789abcdef0123456789abcdee", true⟩,
           ⟨"README.md", false⟩] : List DirEnt).filter
            (fun e => e.isDir && matchesMD5 e.name)).map DirEnt.name :=
  c6_list_filter envC6W _ (fun _ => ⟨"u", rfl⟩) (fun _ => ⟨_, rfl⟩)

/-- C7: a PUT whose target `id/path` does not exist returns the 404
not-found error and leaves the file store exactly as it was — in particular
the file is not created. -/
theorem c7_put_missing_404 (fs : List (String × FileData)) (id path : String)
    (body : List Nat) (h : lookupFS fs (id ++ "/" ++ path) = none) :
    setRepoFile fs id path body = (errNotFound, fs) := by
  simp [setRepoFile, h]

theorem c7_witness :
    setRepoFile [] "r" "a.txt" [1, 2] = (errNotFound, []) :=
  c7_put_missing_404 [] "r" "a.txt" [1, 2] rfl

/-- C8: writing bytes to an existing file via PUT and then reading the same
path via GET returns exactly the written bytes. -/
theorem c8_put_get_roundtrip (fs : List (String × FileData)) (id path : String)
    (fd : FileData) (body : List Nat)
    (h : lookupFS fs (id ++ "/" ++ path) = some fd) :
    getRepoFile (setRepoFile fs id path body).2 id path = .okBytes body := by
  simp [setRepoFile, h, getRepoFile, lookupFS_writeFS]

theorem c8_witness :
    getRepoFile (setRepoFile [("r/a", ⟨[0], 420⟩)] "r" "a" [9, 9]).2 "r" "a" =
      .okBytes [9, 9] :=
  c8_put_get_roundtrip [("r/a", ⟨[0], 420⟩)] "r" "a" ⟨[0], 420⟩ [9, 9] rfl

/-- C9: the identifier of a URL is a deterministic function of the URL
string, and is always exactly 32 characters, all lowercase hexadecimal. -/
theorem c9_md5_format (s : String) :
    md5String s = md5String s ∧
    (md5String s).length = 32 ∧
    (md5String s).data.all isHexLowerChar = true := by
  refine ⟨rfl, ?_, ?_⟩
  · rw [md5String, bytesToHex_length, md5Digest_length]
  · rw [md5String]; exact bytesToHex_all_hex _

/-- C10: `fileExists` answers `false` only for a not-exist stat result; any
other stat error makes the path count as existing, so `getRepo` and
`deleteRepo` do not answer 404 for it, and `createRepo` rejects its
identifier as already taken. -/
theorem c10_stat_error_exists (env : Env) (fn id : String) (req : CreateReq) :
    (fileExists env fn = false ↔ env.stat ("./" ++ fn) = .notExist) ∧
    (env.stat ("./" ++ id) = .otherErr →
      getRepo env id ≠ errNotFound ∧ (deleteRepo env id).1 ≠ errNotFound) ∧
    (env.stat ("./" ++ md5String req.url) = .otherErr → req.url ≠ "" →
      createRepo env (some req) = (.httpErr 400 "repo already exists", [])) := by
  refine ⟨?_, ?_, ?_⟩
  · cases h : env.stat ("./" ++ fn) <;> simp [fileExists, h]
  · intro h
    have hex : fileExists env id = true := by simp [fileExists, h]
    constructor
    · simp only [getRepo, hex, Bool.not_true, Bool.false_eq_true, if_false]
      rcases gitRemote env id with _ | r
      · simp [errNotFound]
      · rcases repoName env id with _ | nm
        · simp [errNotFound]
        · rcases loadRepoFiles id (env.fsAt id) with _ | f <;> simp [errNotFound]
    · simp only [deleteRepo, hex, Bool.not_true, Bool.false_eq_true, if_false]
      by_cases hrm : env.removeOK id <;> simp [hrm, errNotFound]
  · intro h hurl
    have h2 : (req.url == "") = false := beq_eq_false_iff_ne.mpr hurl
    have hex : fileExists env (md5String req.url) = true := by simp [fileExists, h]
    simp [createRepo, h2, hex]

theorem c10_witness :
    getRepo envC10 "q" ≠ errNotFound ∧ (deleteRepo envC10 "q").1 ≠ errNotFound :=
  (c10_stat_error_exists envC10 "q" "q" ⟨"u", "n"⟩).2.1 rfl
